import Mathlib

set_option maxRecDepth 100000

/-!
Verification of the metric-computation core of this repository:
validation_metrics (src/validate.py) and the threshold-sweep logic of
plot_results_above_threshold (src/utils/plots.py), embedded shallowly.

Labels and hard predictions are embedded as List Int, probabilities and
metric values as exact rationals.  Binary64 floats are rationals and the
comparisons the code performs on them are exact, so lists of rationals are
a faithful carrier for probability arrays; the ratio metrics themselves
are modelled as exact quotients.  The one place where binary64 rounding
changes control flow is the threshold grid np.arange(0.01, 1.00, 0.01)
and the loop test thr == 0.5, so the grid is embedded bit-exactly: fl
below is IEEE-754 round-to-nearest-even at 53 significand bits on exact
rationals, and grid element i is fl (d + fl (i * d)) with d = fl (1/100),
which is precisely how numpy fills a float64 arange buffer
(buffer[i] = start + i*step, each operation rounded).

All computations are phrased through mkRat-based arithmetic (qadd, qmul,
qinv, qdiv below) so that every definition evaluates by kernel reduction;
the bridge lemmas qadd_eq, qmul_eq, qinv_eq, qdiv_eq identify these with
the field operations of the rationals.
-/

/-! ### Computable rational arithmetic and its bridge to the field structure -/

/-- Quotient of two integers as a rational, the denominator given
nonnegative (mkRat takes a natural denominator). -/
theorem mkRat_toNat (n d : ℤ) (h : 0 ≤ d) :
    mkRat n d.toNat = (n : ℚ) / (d : ℚ) := by
  rw [Rat.mkRat_eq_div]
  congr 1
  exact_mod_cast congrArg (fun z : ℤ => (z : ℚ)) (Int.toNat_of_nonneg h)

/-- Addition on rationals, computed through mkRat. -/
def qadd (a b : ℚ) : ℚ :=
  mkRat (a.num * (b.den : ℤ) + b.num * (a.den : ℤ)) (a.den * b.den)

theorem qadd_eq (a b : ℚ) : qadd a b = a + b := by
  rw [qadd, Rat.mkRat_eq_div]
  push_cast
  have ha : ((a.den : ℚ)) ≠ 0 := by exact_mod_cast a.den_nz
  have hb : ((b.den : ℚ)) ≠ 0 := by exact_mod_cast b.den_nz
  conv_rhs => rw [← Rat.num_div_den a, ← Rat.num_div_den b]
  rw [div_add_div _ _ ha hb]
  ring_nf

/-- Subtraction on rationals, computed through mkRat. -/
def qsub (a b : ℚ) : ℚ :=
  mkRat (a.num * (b.den : ℤ) - b.num * (a.den : ℤ)) (a.den * b.den)

theorem qsub_eq (a b : ℚ) : qsub a b = a - b := by
  rw [qsub, Rat.mkRat_eq_div]
  push_cast
  have ha : ((a.den : ℚ)) ≠ 0 := by exact_mod_cast a.den_nz
  have hb : ((b.den : ℚ)) ≠ 0 := by exact_mod_cast b.den_nz
  conv_rhs => rw [← Rat.num_div_den a, ← Rat.num_div_den b]
  rw [div_sub_div _ _ ha hb]
  ring_nf

/-- Multiplication on rationals, computed through mkRat. -/
def qmul (a b : ℚ) : ℚ :=
  mkRat (a.num * b.num) (a.den * b.den)

theorem qmul_eq (a b : ℚ) : qmul a b = a * b := by
  rw [qmul, Rat.mkRat_eq_div]
  push_cast
  rw [← div_mul_div_comm, Rat.num_div_den, Rat.num_div_den]

/-- Inverse on rationals, computed through mkRat; sends 0 to 0. -/
def qinv (b : ℚ) : ℚ :=
  if 0 ≤ b.num then mkRat (b.den : ℤ) b.num.toNat
  else mkRat (-(b.den : ℤ)) (-b.num).toNat

theorem qinv_eq (b : ℚ) : qinv b = b⁻¹ := by
  rw [Rat.inv_def', Rat.divInt_eq_div, qinv]
  by_cases h : 0 ≤ b.num
  · rw [if_pos h, mkRat_toNat _ _ h]
  · rw [if_neg h, mkRat_toNat _ _ (by omega), Int.cast_neg, Int.cast_neg,
      neg_div_neg_eq]

/-- Division on rationals, computed through mkRat; division by 0 gives 0. -/
def qdiv (a b : ℚ) : ℚ := qmul a (qinv b)

theorem qdiv_eq (a b : ℚ) : qdiv a b = a / b := by
  rw [qdiv, qmul_eq, qinv_eq, div_eq_mul_inv]

/-! ### Bit-exact model of the binary64 threshold grid -/

/-- Floor of a nonnegative rational as an integer (numerator divided by
denominator; only ever applied to nonnegative values here). -/
def qfloor (q : ℚ) : ℤ := q.num / (q.den : ℤ)

/-- Round a nonnegative rational to an integer, half to even. -/
def rhte (q : ℚ) : ℤ :=
  let f := qfloor q
  let r := qsub q (f : ℚ)
  if r < mkRat 1 2 then f
  else if mkRat 1 2 < r then f + 1
  else if f % 2 = 0 then f else f + 1

/-- Fueled computation of the floor of log2 of a positive rational. -/
def floorLog2Aux : ℕ → ℚ → ℤ → ℤ
  | 0, _, e => e
  | fuel + 1, q, e =>
    if q < 1 then floorLog2Aux fuel (qmul (mkRat 2 1) q) (e - 1)
    else if 2 ≤ q then floorLog2Aux fuel (qmul (mkRat 1 2) q) (e + 1)
    else e

/-- Floor of log2 of a positive rational, correct for magnitudes
within 2^200. -/
def floorLog2 (q : ℚ) : ℤ := floorLog2Aux 200 q 0

/-- Integer power of two as a rational. -/
def pow2 (e : ℤ) : ℚ :=
  if 0 ≤ e then mkRat (2 ^ e.toNat) 1 else mkRat 1 (2 ^ (-e).toNat)

/-- Round a positive rational to 53 significand bits, ties to even: the
value of the nearest binary64 float (the binary64 exponent range is never
exceeded by the quantities rounded in this development). -/
def roundSig (q : ℚ) : ℚ :=
  let e : ℤ := floorLog2 q - 52
  (rhte (qmul q (pow2 (-e))) : ℚ) |> fun m => qmul m (pow2 e)

/-- IEEE-754 binary64 rounding (round to nearest, ties to even) on exact
rationals, for positive inputs; 0 maps to 0 (negative values never occur
in this development). -/
def fl (q : ℚ) : ℚ :=
  if q ≤ 0 then 0 else roundSig q

/-- The binary64 value of the Python literal 0.01, start and step of the
threshold sweep of plots.py. -/
def d001 : ℚ := fl (mkRat 1 100)

/-- The threshold grid np.arange(0.01, 1.00, 0.01) of plots.py line 133:
99 binary64 values; numpy fills element i with start + i*step in double
arithmetic, and computes the length as ceil((1.00-0.01)/0.01) = 99. -/
def thresholds : List ℚ :=
  (List.range 99).map (fun i => fl (qadd d001 (fl (qmul (mkRat i 1) d001))))

/-! ### Embedding of validation_metrics (src/validate.py) -/

/-- The exceptions the Python call can raise, in the order the code can
reach them: a length mismatch between preds and labels raised inside
sklearn.confusion_matrix; the ValueError from unpacking a confusion
matrix that is not 2 by 2 into four scalars (line 35); then, inside
roc_auc_score (line 43), a probs/labels length mismatch, the
only-one-class-present ValueError, and the unspecified-pos-label
ValueError for binary classes other than 0/1. -/
inductive VErr where
  | lengthMismatch
  | confusionUnpack
  | aucLengthMismatch
  | degenerateLabelSet
  | posLabelUnspecified
deriving DecidableEq

/-- The dictionary validation_metrics returns.  Each ratio metric is an
Option: numpy evaluates 0/0 on int64 counts to NaN (with a warning, not
an exception), modelled as none; every numerator here is bounded by its
denominator, so a nonzero denominator gives the exact rational value. -/
structure MetricReport where
  accuracy : Option ℚ
  f1 : Option ℚ
  precision : Option ℚ
  sensitivity : Option ℚ
  specificity : Option ℚ
  auc : ℚ
deriving DecidableEq

deriving instance DecidableEq for Except

/-- Number of indices where labels holds a and preds holds b. -/
def count2 (labels preds : List ℤ) (a b : ℤ) : ℕ :=
  (labels.zip preds).countP (fun q => decide (q.1 = a ∧ q.2 = b))

/-- sklearn.confusion_matrix(labels, preds).ravel() unpacked as
tn, fp, fn, tp (line 35 of validate.py).  sklearn cross-tabulates over
the sorted distinct values occurring in labels or preds; the unpack into
four scalars succeeds exactly when there are two distinct values, and
then row/column order is the sorted class order. -/
def confusionCounts (labels preds : List ℤ) : Option (ℕ × ℕ × ℕ × ℕ) :=
  match (labels ++ preds).dedup with
  | [a, b] =>
    some (count2 labels preds (min a b) (min a b),
          count2 labels preds (min a b) (max a b),
          count2 labels preds (max a b) (min a b),
          count2 labels preds (max a b) (max a b))
  | _ => none

/-- numpy division of two nonnegative int64 counts: denominator 0 gives
NaN (the numerators occurring here never exceed their denominators, so
0/0 is the only zero-denominator shape), modelled as none. -/
def qdivOpt (n d : ℕ) : Option ℚ := if d = 0 then none else some (mkRat n d)

/-- Mann-Whitney (midrank) AUC over exact probabilities: the value
sklearn.roc_auc_score computes for binary labels 0/1.  wins2 doubles the
win count so ties contribute an integer. -/
def aucValue (labels : List ℤ) (probs : List ℚ) : ℚ :=
  let lp := labels.zip probs
  let pos := (lp.filter (fun q => decide (q.1 = 1))).map (fun q => q.2)
  let neg := (lp.filter (fun q => decide (q.1 = 0))).map (fun q => q.2)
  let wins2 := (pos.map (fun p =>
    2 * neg.countP (fun v => decide (v < p)) +
      neg.countP (fun v => decide (v = p)))).sum
  mkRat wins2 (2 * pos.length * neg.length)

/-- sklearn.roc_auc_score(labels, probs) (line 43 of validate.py): checks
consistent lengths, then that y_true holds exactly two distinct classes
(otherwise the only-one-class ValueError), then that the classes are 0/1
(otherwise the pos_label ValueError; sklearn also accepts -1/1, which is
outside this data model and never reached by the theorems below). -/
def rocAucScore (labels : List ℤ) (probs : List ℚ) : Except VErr ℚ :=
  if probs.length ≠ labels.length then .error .aucLengthMismatch
  else if labels.dedup.length ≠ 2 then .error .degenerateLabelSet
  else if labels.dedup.all (fun x => decide (x = 0 ∨ x = 1)) then
    .ok (aucValue labels probs)
  else .error .posLabelUnspecified

/-- validation_metrics of src/validate.py: unpack the confusion matrix
as tn, fp, fn, tp, form the five ratio metrics (numpy NaN on 0/0,
modelled by qdivOpt), compute AUC, and return the report.  The ratio
divisions never raise in Python, so the first exception reached is the
one returned. -/
def validation_metrics (preds : List ℤ) (probs : List ℚ)
    (labels : List ℤ) : Except VErr MetricReport :=
  if preds.length ≠ labels.length then .error .lengthMismatch
  else
    match confusionCounts labels preds with
    | none => .error .confusionUnpack
    | some (tn, fp, fn, tp) =>
      match rocAucScore labels probs with
      | .error e => .error e
      | .ok auc =>
        .ok { accuracy := qdivOpt (tp + tn) (tp + fp + tn + fn),
              f1 := qdivOpt (2 * tp) (2 * tp + fp + fn),
              precision := qdivOpt tp (tp + fp),
              sensitivity := qdivOpt tp (tp + fn),
              specificity := qdivOpt tn (fp + tn),
              auc := auc }

/-! ### Embedding of the threshold sweep (plot_results_above_threshold,
src/utils/plots.py) -/

/-- preds = (probs > thr).astype(int), pointwise: strictly greater than
the threshold gives 1, otherwise (including exact equality) 0. -/
def classifyAt (t p : ℚ) : ℤ := if t < p then 1 else 0

/-- The hard labels the sweep derives at threshold t (line 139). -/
def predsAt (probs : List ℚ) (t : ℚ) : List ℤ := probs.map (classifyAt t)

/-- True positives for positive class 1 over aligned arrays. -/
def tpCount (labels preds : List ℤ) : ℕ :=
  (labels.zip preds).countP (fun q => decide (q.1 = 1 ∧ q.2 = 1))

/-- Number of predicted positives (sklearn pred_sum for pos_label 1). -/
def predSum (labels preds : List ℤ) : ℕ :=
  (labels.zip preds).countP (fun q => decide (q.2 = 1))

/-- Number of true positives in y_true (sklearn true_sum). -/
def trueSum (labels preds : List ℤ) : ℕ :=
  (labels.zip preds).countP (fun q => decide (q.1 = 1))

/-- sklearn.accuracy_score: fraction of positions where prediction and
label agree.  sklearn requires the lengths to agree; the theorems below
always supply aligned arrays. -/
def accuracy_score (labels preds : List ℤ) : ℚ :=
  mkRat ((labels.zip preds).countP (fun q => decide (q.1 = q.2)))
    labels.length

/-- sklearn.precision_score with zero_division=0: tp over predicted
positives, and 0 instead of an undefined ratio. -/
def precision_score (labels preds : List ℤ) : ℚ :=
  if predSum labels preds = 0 then 0
  else mkRat (tpCount labels preds) (predSum labels preds)

/-- sklearn.recall_score with zero_division=0: tp over actual positives,
and 0 instead of an undefined ratio. -/
def recall_score (labels preds : List ℤ) : ℚ :=
  if trueSum labels preds = 0 then 0
  else mkRat (tpCount labels preds) (trueSum labels preds)

/-- sklearn.f1_score with zero_division=0: harmonic mean 2pr/(p+r) of
precision and recall, and 0 when p + r = 0. -/
def f1_score (labels preds : List ℤ) : ℚ :=
  let p := precision_score labels preds
  let r := recall_score labels preds
  if qadd p r = 0 then 0 else qdiv (qmul (mkRat 2 1) (qmul p r)) (qadd p r)

/-- sum(preds)/len(probs), the Percentage of Samples series entry
(line 141 of plots.py). -/
def percentageOfSamples (probs : List ℚ) (t : ℚ) : ℚ :=
  mkRat ((predsAt probs t).sum) probs.length

/-- One sweep metric as a function of the threshold. -/
def sweepAccuracy (labels : List ℤ) (probs : List ℚ) (t : ℚ) : ℚ :=
  accuracy_score labels (predsAt probs t)

/-- Precision across the sweep as a function of the threshold. -/
def sweepPrecision (labels : List ℤ) (probs : List ℚ) (t : ℚ) : ℚ :=
  precision_score labels (predsAt probs t)

/-- Recall across the sweep as a function of the threshold. -/
def sweepRecall (labels : List ℤ) (probs : List ℚ) (t : ℚ) : ℚ :=
  recall_score labels (predsAt probs t)

/-- F1 across the sweep as a function of the threshold. -/
def sweepF1 (labels : List ℤ) (probs : List ℚ) (t : ℚ) : ℚ :=
  f1_score labels (predsAt probs t)

/-- The raw per-threshold series of a metric: the above_threshold array
zipped with the threshold grid. -/
def seriesPoints (f : ℚ → ℚ) : List (ℚ × ℚ) :=
  thresholds.map (fun t => (t, f t))

/-- The plotted series: plots.py line 150 keeps the pairs whose value
differs from 0 (threshold[nonzero], above_threshold[nonzero]). -/
def plotSeries (f : ℚ → ℚ) : List (ℚ × ℚ) :=
  (seriesPoints f).filter (fun q => decide (q.2 ≠ 0))

/-- The scalar the loop records for the legend: result is assigned at
every iteration whose threshold compares equal to the double 0.5, so it
holds the value at the last such hit; none models the NameError raised
at line 149 when no iteration hits 0.5. -/
def resultAt05 (f : ℚ → ℚ) : Option ℚ :=
  ((thresholds.filter (fun t => decide (t = mkRat 1 2))).map f).getLast?

/-! ### Helper lemmas -/

theorem thresholds_length : thresholds.length = 99 := by decide

theorem thresholds_sorted : List.Pairwise (fun a b : ℚ => a < b) thresholds := by
  decide

/-- The loop test thr == 0.5 succeeds exactly once across the grid, at
element 49, whose binary64 value is exactly one half. -/
theorem thresholds_half_filter :
    thresholds.filter (fun t => decide (t = mkRat 1 2)) = [mkRat 1 2] := by
  decide

/-- The recorded at-0.5 scalar of any sweep metric is its value at the
exact rational one half. -/
theorem resultAt05_eq (f : ℚ → ℚ) : resultAt05 f = some (f (mkRat 1 2)) := by
  rw [resultAt05, thresholds_half_filter]
  rfl

theorem qdivOpt_self (n : ℕ) (h : n ≠ 0) : qdivOpt n n = some 1 := by
  rw [qdivOpt, if_neg h, Rat.mkRat_eq_div]
  push_cast
  rw [div_self (by exact_mod_cast h)]

/-- Deduplicating a nonempty constant list gives the singleton. -/
theorem dedup_of_all_eq (a : ℤ) :
    ∀ l : List ℤ, l ≠ [] → (∀ x ∈ l, x = a) → l.dedup = [a] := by
  intro l
  induction l with
  | nil => intro h; exact absurd rfl h
  | cons x xs ih =>
    intro _ hall
    have hx : x = a := hall x (by simp)
    cases xs with
    | nil =>
      rw [List.dedup_cons_of_not_mem (by simp), List.dedup_nil, hx]
    | cons y ys =>
      have hxs : ∀ z ∈ y :: ys, z = a := fun z hz =>
        hall z (List.mem_cons_of_mem x hz)
      have hy : y = a := hxs y (by simp)
      have hxy : x = y := by omega
      have hmem : x ∈ y :: ys := by rw [hxy]; exact List.mem_cons_self y ys
      rw [List.dedup_cons_of_mem hmem]
      exact ih (by simp) hxs

/-- A duplicate-free list of zeros and ones containing both values is one
of the two orderings of the pair. -/
theorem nodup_pair_01 :
    ∀ l : List ℤ, l.Nodup → (∀ x ∈ l, x = 0 ∨ x = 1) →
      (0 : ℤ) ∈ l → (1 : ℤ) ∈ l → l = [0, 1] ∨ l = [1, 0] := by
  intro l
  match l with
  | [] => intro _ _ h0; cases h0
  | [a] =>
    intro _ _ h0 h1
    have ha0 : (0 : ℤ) = a := List.mem_singleton.1 h0
    have ha1 : (1 : ℤ) = a := List.mem_singleton.1 h1
    omega
  | [a, b] =>
    intro hn _ h0 h1
    have hab : a ≠ b := by
      have := List.pairwise_cons.1 hn
      exact this.1 b (by simp)
    simp only [List.mem_cons, List.mem_singleton, List.not_mem_nil,
      or_false] at h0 h1
    rcases h0 with h | h <;> rcases h1 with g | g
    · omega
    · left; rw [← h, ← g]
    · right; rw [← h, ← g]
    · omega
  | a :: b :: c :: rest =>
    intro hn hp _ _
    exfalso
    obtain ⟨hna, hn2⟩ := List.pairwise_cons.1 hn
    obtain ⟨hnb, _⟩ := List.pairwise_cons.1 hn2
    have hab : a ≠ b := hna b (by simp)
    have hac : a ≠ c := hna c (by simp)
    have hbc : b ≠ c := hnb c (by simp)
    have ha := hp a (by simp)
    have hb := hp b (by simp)
    have hc := hp c (by simp)
    omega

/-- When every value in labels and preds is 0 or 1 and both values occur
somewhere, the confusion matrix is the standard 2 by 2 one with classes
ordered 0 then 1. -/
theorem confusionCounts_of_01 (labels preds : List ℤ)
    (hl : ∀ x ∈ labels, x = 0 ∨ x = 1) (hp : ∀ x ∈ preds, x = 0 ∨ x = 1)
    (h0 : (0 : ℤ) ∈ labels ++ preds) (h1 : (1 : ℤ) ∈ labels ++ preds) :
    confusionCounts labels preds =
      some (count2 labels preds 0 0, count2 labels preds 0 1,
            count2 labels preds 1 0, count2 labels preds 1 1) := by
  have hn := List.nodup_dedup (labels ++ preds)
  have hmem : ∀ x ∈ (labels ++ preds).dedup, x = 0 ∨ x = 1 := by
    intro x hx
    rcases List.mem_append.1 (List.mem_dedup.1 hx) with h | h
    exacts [hl x h, hp x h]
  have hd0 : (0 : ℤ) ∈ (labels ++ preds).dedup := List.mem_dedup.2 h0
  have hd1 : (1 : ℤ) ∈ (labels ++ preds).dedup := List.mem_dedup.2 h1
  rcases nodup_pair_01 _ hn hmem hd0 hd1 with h | h <;>
    · rw [confusionCounts, h]
      norm_num

/-- countP over the zip of a list with itself is a countP over the list. -/
theorem countP_zip_self (p : ℤ × ℤ → Bool) :
    ∀ l : List ℤ, (l.zip l).countP p = l.countP (fun x => p (x, x)) := by
  intro l
  induction l with
  | nil => rfl
  | cons x xs ih => simp [List.zip_cons_cons, List.countP_cons, ih]

/-- Split a pair count along the first component being 0 or 1. -/
theorem countP_split_fst (p : ℤ × ℤ → Bool) :
    ∀ l : List (ℤ × ℤ), (∀ q ∈ l, q.1 = 0 ∨ q.1 = 1) →
      l.countP p =
        l.countP (fun q => p q && decide (q.1 = 0)) +
          l.countP (fun q => p q && decide (q.1 = 1)) := by
  intro l
  induction l with
  | nil => simp
  | cons x xs ih =>
    intro hall
    have hx := hall x (by simp)
    have hxs := fun q hq => hall q (List.mem_cons_of_mem x hq)
    simp only [List.countP_cons, ih hxs]
    rcases hx with h | h <;> by_cases hpx : p x = true <;>
      simp [hpx, h] <;> omega

/-- Split a pair count along the second component being 0 or 1. -/
theorem countP_split_snd (p : ℤ × ℤ → Bool) :
    ∀ l : List (ℤ × ℤ), (∀ q ∈ l, q.2 = 0 ∨ q.2 = 1) →
      l.countP p =
        l.countP (fun q => p q && decide (q.2 = 0)) +
          l.countP (fun q => p q && decide (q.2 = 1)) := by
  intro l
  induction l with
  | nil => simp
  | cons x xs ih =>
    intro hall
    have hx := hall x (by simp)
    have hxs := fun q hq => hall q (List.mem_cons_of_mem x hq)
    simp only [List.countP_cons, ih hxs]
    rcases hx with h | h <;> by_cases hpx : p x = true <;>
      simp [hpx, h] <;> omega

/-- Counting with a predicate that agrees pointwise on the list. -/
theorem countP_congr_mem {α : Type} (l : List α) (p q : α → Bool)
    (h : ∀ x ∈ l, p x = q x) : l.countP p = l.countP q := by
  induction l with
  | nil => rfl
  | cons x xs ih =>
    simp only [List.countP_cons, h x (by simp),
      ih (fun y hy => h y (List.mem_cons_of_mem x hy))]

/-! ### Claims about validation_metrics -/

/-- Claim C10: for every input in which the predicted labels and true
labels together contain only one distinct class value a (so all-zeros
inputs and all-ones inputs alike), validation_metrics fails before
returning any metric: the derived confusion matrix is 1 by 1 and the
four-way unpack of line 35 raises, even though the inputs satisfy the
declared data-model constraints. -/
theorem c10_one_class_unpack_fails (preds : List ℤ) (probs : List ℚ)
    (labels : List ℤ) (a : ℤ) (hlen : preds.length = labels.length)
    (hne : labels ≠ []) (hl : ∀ x ∈ labels, x = a)
    (hp : ∀ x ∈ preds, x = a) :
    validation_metrics preds probs labels = .error .confusionUnpack := by
  have hall : ∀ x ∈ labels ++ preds, x = a := by
    intro x hx
    rcases List.mem_append.1 hx with h | h
    exacts [hl x h, hp x h]
  have hne2 : labels ++ preds ≠ [] := by
    intro h
    exact hne (List.append_eq_nil.1 h).1
  have hcc : confusionCounts labels preds = none := by
    unfold confusionCounts
    rw [dedup_of_all_eq a (labels ++ preds) hne2 hall]
  unfold validation_metrics
  rw [if_neg (not_not_intro hlen), hcc]

/-- Witness for C10 at both one-class inputs: preds = labels = [1, 1]
and preds = labels = [0, 0]. -/
theorem c10_witness :
    (∀ x ∈ ([1, 1] : List ℤ), x = 1) ∧
      validation_metrics [1, 1] [mkRat 1 3, mkRat 2 3] [1, 1] =
        .error .confusionUnpack ∧
      (∀ x ∈ ([0, 0] : List ℤ), x = 0) ∧
      validation_metrics [0, 0] [mkRat 1 2, mkRat 1 2] [0, 0] =
        .error .confusionUnpack :=
  ⟨by decide,
    c10_one_class_unpack_fails [1, 1] [mkRat 1 3, mkRat 2 3] [1, 1] 1
      rfl (by decide) (by decide) (by decide),
    by decide,
    c10_one_class_unpack_fails [0, 0] [mkRat 1 2, mkRat 1 2] [0, 0] 0
      rfl (by decide) (by decide) (by decide)⟩

/-- Counterexample to claim C2 as stated: at preds = [1, 1],
trueLabel = [1, 1] (one-class trueLabel), the call fails at the
confusion-matrix unpack, not with the one-class AUC error, so not every
one-class trueLabel input reaches the DegenerateLabelSet signal. -/
theorem c2_counterexample :
    (∀ x ∈ ([1, 1] : List ℤ), x = 1) ∧
      validation_metrics [1, 1] [mkRat 1 2, mkRat 1 2] [1, 1] =
        .error .confusionUnpack ∧
      VErr.confusionUnpack ≠ VErr.degenerateLabelSet := by
  decide

/-- Claim C2, amended: whenever the confusion-matrix unpack succeeds
(two distinct values across labels and preds) and the lengths agree, a
trueLabel sequence holding a single distinct class makes roc_auc_score
raise its only-one-class error, and validation_metrics propagates exactly
that error instead of returning a value. -/
theorem c2_one_class_auc_degenerate (preds : List ℤ) (probs : List ℚ)
    (labels : List ℤ) (hlenp : preds.length = labels.length)
    (hlenq : probs.length = labels.length) (tn fp fn tp : ℕ)
    (hcc : confusionCounts labels preds = some (tn, fp, fn, tp))
    (hone : labels.dedup.length = 1) :
    validation_metrics preds probs labels = .error .degenerateLabelSet := by
  have hauc : rocAucScore labels probs = .error .degenerateLabelSet := by
    unfold rocAucScore
    rw [if_neg (not_not_intro hlenq), if_pos (by omega)]
  unfold validation_metrics
  rw [if_neg (not_not_intro hlenp), hcc, hauc]

/-- Witness for the amended C2 at preds = [0, 1], trueLabel = [1, 1]. -/
theorem c2_witness :
    confusionCounts [1, 1] [0, 1] = some (0, 0, 1, 1) ∧
      ([1, 1] : List ℤ).dedup.length = 1 ∧
      validation_metrics [0, 1] [mkRat 1 2, mkRat 1 2] [1, 1] =
        .error .degenerateLabelSet :=
  ⟨by decide, by decide,
    c2_one_class_auc_degenerate [0, 1] [mkRat 1 2, mkRat 1 2] [1, 1]
      rfl rfl 0 0 1 1 (by decide) (by decide)⟩

/-- Counterexample to claim C9 as stated: the probability 3/2 is outside
the declared range [0, 1], yet validation_metrics returns a full metric
report instead of failing fast: no range validation exists in the code. -/
theorem c9_counterexample :
    (1 : ℚ) < mkRat 3 2 ∧
      validation_metrics [0, 1] [mkRat 3 2, mkRat 1 2] [0, 1] =
        .ok { accuracy := some 1, f1 := some 1, precision := some 1,
              sensitivity := some 1, specificity := some 1, auc := 0 } := by
  decide

/-- Claim C9, amended: validation_metrics performs no explicit input
validation of its own.  A preds/labels length mismatch does fail before
any metric (raised inside the confusion-matrix construction), and N = 0
fails at the confusion-matrix unpack; but out-of-range values are not
checked, so a probability outside [0, 1] still produces a metric
report. -/
theorem c9_no_input_validation :
    (∀ (preds : List ℤ) (probs : List ℚ) (labels : List ℤ),
        preds.length ≠ labels.length →
        validation_metrics preds probs labels = .error .lengthMismatch) ∧
      (∀ probs : List ℚ,
        validation_metrics [] probs [] = .error .confusionUnpack) ∧
      validation_metrics [0, 1] [mkRat 3 2, mkRat 1 2] [0, 1] =
        .ok { accuracy := some 1, f1 := some 1, precision := some 1,
              sensitivity := some 1, specificity := some 1, auc := 0 } := by
  refine ⟨fun preds probs labels h => ?_, fun probs => ?_, by decide⟩
  · unfold validation_metrics
    rw [if_pos h]
  · unfold validation_metrics
    rw [if_neg (not_not_intro rfl)]
    have hcc : confusionCounts [] [] = none := by decide
    rw [hcc]

/-- Witness for the amended C9: a mismatched-length call fails with the
length error. -/
theorem c9_witness :
    ([0] : List ℤ).length ≠ ([] : List ℤ).length ∧
      validation_metrics [0] [] [] = .error .lengthMismatch :=
  ⟨by decide, c9_no_input_validation.1 [0] [] [] (by decide)⟩

/-- Claim C1: in a successful validation_metrics call, a ratio metric
with a zero denominator is reported as NaN (none), never as 0: precision
when tp+fp = 0, sensitivity when tp+fn = 0, specificity when fp+tn = 0.
(In a successful call only the precision case is reachable, since AUC
requires both classes in the labels; the other two hold at the level of
the returned report all the same.) -/
theorem c1_zero_denominator_is_nan (preds : List ℤ) (probs : List ℚ)
    (labels : List ℤ) (tn fp fn tp : ℕ)
    (hcc : confusionCounts labels preds = some (tn, fp, fn, tp))
    (r : MetricReport)
    (hr : validation_metrics preds probs labels = .ok r) :
    (tp + fp = 0 → r.precision = none ∧ r.precision ≠ some 0) ∧
      (tp + fn = 0 → r.sensitivity = none) ∧
      (fp + tn = 0 → r.specificity = none) := by
  unfold validation_metrics at hr
  by_cases hL : preds.length ≠ labels.length
  · rw [if_pos hL] at hr; cases hr
  · rw [if_neg hL, hcc] at hr
    cases hauc : rocAucScore labels probs with
    | error e => rw [hauc] at hr; cases hr
    | ok auc =>
      rw [hauc] at hr
      cases hr
      refine ⟨fun h => ?_, fun h => ?_, fun h => ?_⟩
      · constructor
        · simp [qdivOpt, h]
        · simp [qdivOpt, h]
      · simp [qdivOpt, h]
      · simp [qdivOpt, h]

/-- Witness for C1: no positive prediction at all, so tp+fp = 0 and the
returned precision is NaN, not 0. -/
theorem c1_witness :
    confusionCounts [0, 1] [0, 0] = some (1, 0, 1, 0) ∧
      validation_metrics [0, 0] [mkRat 3 10, mkRat 7 10] [0, 1] =
        .ok { accuracy := some (mkRat 1 2), f1 := some 0, precision := none,
              sensitivity := some 0, specificity := some 1, auc := 1 } ∧
      ((0 : ℕ) + 0 = 0 →
        MetricReport.precision
          { accuracy := some (mkRat 1 2), f1 := some 0, precision := none,
            sensitivity := some 0, specificity := some 1, auc := 1 } = none ∧
        MetricReport.precision
          { accuracy := some (mkRat 1 2), f1 := some 0, precision := none,
            sensitivity := some 0, specificity := some 1, auc := 1 } ≠
            some 0) :=
  ⟨by decide, by decide,
    (c1_zero_denominator_is_nan [0, 0] [mkRat 3 10, mkRat 7 10] [0, 1]
      1 0 1 0 (by decide) _ (by decide)).1⟩

/-! ### Claims about the threshold sweep -/

/-- The sum of the 0/1 labels the sweep derives at threshold t counts
the probabilities strictly above t. -/
theorem predsAt_sum (t : ℚ) :
    ∀ probs : List ℚ,
      (predsAt probs t).sum = (probs.countP (fun p => decide (t < p)) : ℤ) := by
  intro probs
  induction probs with
  | nil => rfl
  | cons p ps ih =>
    rw [predsAt] at ih ⊢
    rw [List.map_cons, List.sum_cons, List.countP_cons, ih, classifyAt]
    by_cases h : t < p
    · simp [h]
      omega
    · simp [h]

theorem mkRat_le_mkRat_right (m k : ℤ) (n : ℕ) (h : m ≤ k) :
    mkRat m n ≤ mkRat k n := by
  rw [Rat.mkRat_eq_div, Rat.mkRat_eq_div]
  have hn2 : (0 : ℚ) ≤ (n : ℚ) := by positivity
  exact div_le_div_of_nonneg_right (by exact_mod_cast h) hn2

/-- Raising the threshold cannot raise the fraction of samples called
positive. -/
theorem percentage_anti (probs : List ℚ) (a b : ℚ) (hab : a ≤ b) :
    percentageOfSamples probs b ≤ percentageOfSamples probs a := by
  rw [percentageOfSamples, percentageOfSamples, predsAt_sum, predsAt_sum]
  apply mkRat_le_mkRat_right
  have hmono : probs.countP (fun p => decide (b < p)) ≤
      probs.countP (fun p => decide (a < p)) := by
    apply List.countP_mono_left
    intro x _ hx
    simp only [decide_eq_true_eq] at hx ⊢
    exact lt_of_le_of_lt hab hx
  exact_mod_cast hmono

/-- Claim C8: across the sweep the Percentage of Samples series is
non-increasing in the threshold, for every input. -/
theorem c8_percentage_nonincreasing (probs : List ℚ) :
    List.Pairwise (fun a b : ℚ => b ≤ a)
      (thresholds.map (fun t => percentageOfSamples probs t)) :=
  thresholds_sorted.map _
    (fun a b hab => percentage_anti probs a b (le_of_lt hab))

/-- Claim C7: the plotted series of each swept metric keeps exactly the
(threshold, value) pairs whose value is not 0, dropping the zero-valued
thresholds and preserving the increasing threshold order. -/
theorem c7_series_filters_zeros (f : ℚ → ℚ) :
    plotSeries f =
      (thresholds.filter (fun t => decide (f t ≠ 0))).map
        (fun t => (t, f t)) ∧
      (∀ t v : ℚ,
        (t, v) ∈ plotSeries f ↔ t ∈ thresholds ∧ v = f t ∧ v ≠ 0) ∧
      List.Pairwise (fun a b : ℚ × ℚ => a.1 < b.1) (plotSeries f) := by
  have hq : plotSeries f =
      (thresholds.filter (fun t => decide (f t ≠ 0))).map
        (fun t => (t, f t)) := by
    rw [plotSeries, seriesPoints, List.filter_map]
    rfl
  refine ⟨hq, fun t v => ?_, ?_⟩
  · rw [hq]
    constructor
    · intro h
      obtain ⟨a, ha, hav⟩ := List.mem_map.1 h
      obtain ⟨ham, hpa⟩ := List.mem_filter.1 ha
      cases hav
      exact ⟨ham, rfl, by simpa using hpa⟩
    · rintro ⟨ht, rfl, hv⟩
      exact List.mem_map.2 ⟨t, List.mem_filter.2 ⟨ht, by simpa using hv⟩, rfl⟩
  · rw [hq]
    exact (List.Pairwise.filter _ thresholds_sorted).map _ (fun a b hab => hab)

/-- Claim C6: the sweep is total over the 99 thresholds for all five
tracked metrics, zero-denominator precision and recall (and the
vanishing p + r case of F1) give the value 0 rather than an error, and
accuracy is a true quotient by N, which is nonzero whenever N is at
least 1. -/
theorem c6_sweep_total (labels : List ℤ) (probs : List ℚ)
    (hlen : probs.length = labels.length) (hne : labels ≠ []) :
    (thresholds.map (fun t => sweepAccuracy labels probs t)).length = 99 ∧
      (thresholds.map (fun t => sweepPrecision labels probs t)).length = 99 ∧
      (thresholds.map (fun t => sweepRecall labels probs t)).length = 99 ∧
      (thresholds.map (fun t => sweepF1 labels probs t)).length = 99 ∧
      (thresholds.map (fun t => percentageOfSamples probs t)).length = 99 ∧
      (∀ t : ℚ, predSum labels (predsAt probs t) = 0 →
        sweepPrecision labels probs t = 0) ∧
      (∀ t : ℚ, trueSum labels (predsAt probs t) = 0 →
        sweepRecall labels probs t = 0) ∧
      (∀ t : ℚ,
        precision_score labels (predsAt probs t) +
            recall_score labels (predsAt probs t) = 0 →
        sweepF1 labels probs t = 0) ∧
      ((labels.length : ℚ) ≠ 0 ∧
        ∀ t : ℚ,
          sweepAccuracy labels probs t * (labels.length : ℚ) =
            ((labels.zip (predsAt probs t)).countP
              (fun q => decide (q.1 = q.2)) : ℚ)) := by
  have hlen99 : thresholds.length = 99 := thresholds_length
  have hN : labels.length ≠ 0 := by
    intro h
    exact hne (List.length_eq_zero.1 h)
  refine ⟨by simp [hlen99], by simp [hlen99], by simp [hlen99],
    by simp [hlen99], by simp [hlen99], fun t h => ?_, fun t h => ?_,
    fun t h => ?_, by exact_mod_cast hN, fun t => ?_⟩
  · rw [sweepPrecision, precision_score, if_pos h]
  · rw [sweepRecall, recall_score, if_pos h]
  · simp only [sweepF1, f1_score]
    rw [if_pos (by rw [qadd_eq]; exact h)]
  · rw [sweepAccuracy, accuracy_score, Rat.mkRat_eq_div]
    push_cast
    rw [div_mul_cancel₀]
    exact_mod_cast hN

/-- Witness for C6 on a concrete two-sample input with no positive calls
at threshold 3/4: precision, recall and F1 coerce to 0 and accuracy is
the exact quotient 1. -/
theorem c6_witness :
    ([mkRat 1 2, mkRat 1 4] : List ℚ).length = ([0, 0] : List ℤ).length ∧
      ([0, 0] : List ℤ) ≠ [] ∧
      predSum [0, 0] (predsAt [mkRat 1 2, mkRat 1 4] (mkRat 3 4)) = 0 ∧
      sweepPrecision [0, 0] [mkRat 1 2, mkRat 1 4] (mkRat 3 4) = 0 ∧
      sweepRecall [0, 0] [mkRat 1 2, mkRat 1 4] (mkRat 3 4) = 0 ∧
      sweepAccuracy [0, 0] [mkRat 1 2, mkRat 1 4] (mkRat 3 4) *
          (([0, 0] : List ℤ).length : ℚ) =
        ((([0, 0] : List ℤ).zip
            (predsAt [mkRat 1 2, mkRat 1 4] (mkRat 3 4))).countP
          (fun q => decide (q.1 = q.2)) : ℚ) :=
  ⟨by decide, by decide, by decide,
    (c6_sweep_total [0, 0] [mkRat 1 2, mkRat 1 4] (by decide)
      (by decide)).2.2.2.2.2.1 (mkRat 3 4) (by decide),
    (c6_sweep_total [0, 0] [mkRat 1 2, mkRat 1 4] (by decide)
      (by decide)).2.2.2.2.2.2.1 (mkRat 3 4) (by decide),
    (c6_sweep_total [0, 0] [mkRat 1 2, mkRat 1 4] (by decide)
      (by decide)).2.2.2.2.2.2.2.2.2 (mkRat 3 4)⟩

/-- Claim C5: the sweep evaluates exactly 99 thresholds, each within one
binary64 unit in the last place (bounded by 2 to the minus 52) of the
decimal grid value (i+1)/100 for i = 0..98, so the grid is 0.01 through
0.99 inclusive in steps of 0.01 up to float representation; and a sample
is classified positive at threshold t exactly when its probability is
strictly greater than t, a probability equal to t classifying
negative. -/
theorem c5_grid_and_strict_inequality :
    thresholds.length = 99 ∧
      (∀ i : ℕ, ∀ h : i < thresholds.length,
        qsub (thresholds.get ⟨i, h⟩) (mkRat (i + 1) 100) < pow2 (-52) ∧
          qsub (mkRat (i + 1) 100) (thresholds.get ⟨i, h⟩) < pow2 (-52)) ∧
      ∀ t p : ℚ, (classifyAt t p = 1 ↔ t < p) ∧
        (p = t → classifyAt t p = 0) := by
  refine ⟨thresholds_length, by decide, fun t p => ⟨?_, fun h => ?_⟩⟩
  · rw [classifyAt]
    by_cases h : t < p
    · simp [h]
    · simp [h]
  · rw [classifyAt, if_neg (by rw [h]; exact lt_irrefl t)]

/-- Witness for C5 at grid index 49 and at a probability equal to the
threshold. -/
theorem c5_witness :
    49 < thresholds.length ∧
      qsub (thresholds.get ⟨49, by decide⟩) (mkRat 50 100) < pow2 (-52) ∧
      classifyAt (mkRat 1 2) (mkRat 1 2) = 0 :=
  ⟨by decide,
    (c5_grid_and_strict_inequality.2.1 49 (by decide)).1,
    (c5_grid_and_strict_inequality.2.2 (mkRat 1 2) (mkRat 1 2)).2 rfl⟩

/-- Counterexample to claim C3 as stated: preds = labels = [0] is a valid
input (equal lengths, N = 1, labels in 0/1) with perfect agreement, yet
validation_metrics raises at the confusion-matrix unpack instead of
returning metrics equal to 1. -/
theorem c3_counterexample :
    (∀ x ∈ ([0] : List ℤ), x = 0 ∨ x = 1) ∧
      validation_metrics [0] [mkRat 1 2] [0] = .error .confusionUnpack := by
  decide

/-- Claim C3, amended: when preds equals labels pointwise, every value is
0 or 1, and both classes actually occur in the labels (so the confusion
matrix is 2 by 2 and AUC is computable), the call succeeds and accuracy,
precision, sensitivity, specificity and F1 all equal 1. -/
theorem c3_perfect_prediction (labels : List ℤ) (probs : List ℚ)
    (hlab : ∀ x ∈ labels, x = 0 ∨ x = 1)
    (h0 : (0 : ℤ) ∈ labels) (h1 : (1 : ℤ) ∈ labels)
    (hlenq : probs.length = labels.length) :
    ∃ r, validation_metrics labels probs labels = .ok r ∧
      r.accuracy = some 1 ∧ r.precision = some 1 ∧ r.sensitivity = some 1 ∧
      r.specificity = some 1 ∧ r.f1 = some 1 := by
  have hc00 : count2 labels labels 0 0 =
      labels.countP (fun x => decide (x = 0)) := by
    rw [count2, countP_zip_self]
    exact countP_congr_mem _ _ _ (fun x _ => by simp)
  have hc11 : count2 labels labels 1 1 =
      labels.countP (fun x => decide (x = 1)) := by
    rw [count2, countP_zip_self]
    exact countP_congr_mem _ _ _ (fun x _ => by simp)
  have hc01 : count2 labels labels 0 1 = 0 := by
    rw [count2, countP_zip_self]
    exact List.countP_eq_zero.2 (fun a _ => by simp; omega)
  have hc10 : count2 labels labels 1 0 = 0 := by
    rw [count2, countP_zip_self]
    exact List.countP_eq_zero.2 (fun a _ => by simp; omega)
  have hcc := confusionCounts_of_01 labels labels hlab hlab
    (List.mem_append_left _ h0) (List.mem_append_left _ h1)
  rw [hc00, hc01, hc10, hc11] at hcc
  have hded : labels.dedup = [0, 1] ∨ labels.dedup = [1, 0] :=
    nodup_pair_01 _ (List.nodup_dedup labels)
      (fun x hx => hlab x (List.mem_dedup.1 hx))
      (List.mem_dedup.2 h0) (List.mem_dedup.2 h1)
  have hauc : rocAucScore labels probs = .ok (aucValue labels probs) := by
    unfold rocAucScore
    rw [if_neg (not_not_intro hlenq)]
    rcases hded with h | h <;>
      rw [h, if_neg (by norm_num), if_pos (by decide)]
  have hp0 : labels.countP (fun x => decide (x = 0)) ≠ 0 := by
    have h : 0 < labels.countP (fun x => decide (x = 0)) :=
      List.countP_pos_iff.2 ⟨0, h0, by simp⟩
    omega
  have hp1 : labels.countP (fun x => decide (x = 1)) ≠ 0 := by
    have h : 0 < labels.countP (fun x => decide (x = 1)) :=
      List.countP_pos_iff.2 ⟨1, h1, by simp⟩
    omega
  have hmain : validation_metrics labels probs labels =
      .ok { accuracy := qdivOpt
              (labels.countP (fun x => decide (x = 1)) +
                labels.countP (fun x => decide (x = 0)))
              (labels.countP (fun x => decide (x = 1)) + 0 +
                labels.countP (fun x => decide (x = 0)) + 0),
            f1 := qdivOpt (2 * labels.countP (fun x => decide (x = 1)))
              (2 * labels.countP (fun x => decide (x = 1)) + 0 + 0),
            precision := qdivOpt (labels.countP (fun x => decide (x = 1)))
              (labels.countP (fun x => decide (x = 1)) + 0),
            sensitivity := qdivOpt (labels.countP (fun x => decide (x = 1)))
              (labels.countP (fun x => decide (x = 1)) + 0),
            specificity := qdivOpt (labels.countP (fun x => decide (x = 0)))
              (0 + labels.countP (fun x => decide (x = 0))),
            auc := aucValue labels probs } := by
    unfold validation_metrics
    rw [if_neg (not_not_intro rfl), hcc, hauc]
  refine ⟨_, hmain, ?_, ?_, ?_, ?_, ?_⟩
  · show qdivOpt _ _ = some 1
    have he : labels.countP (fun x => decide (x = 1)) + 0 +
        labels.countP (fun x => decide (x = 0)) + 0 =
        labels.countP (fun x => decide (x = 1)) +
          labels.countP (fun x => decide (x = 0)) := by omega
    rw [he]
    exact qdivOpt_self _ (by omega)
  · show qdivOpt _ _ = some 1
    rw [Nat.add_zero]
    exact qdivOpt_self _ hp1
  · show qdivOpt _ _ = some 1
    rw [Nat.add_zero]
    exact qdivOpt_self _ hp1
  · show qdivOpt _ _ = some 1
    rw [Nat.zero_add]
    exact qdivOpt_self _ hp0
  · show qdivOpt _ _ = some 1
    have he : 2 * labels.countP (fun x => decide (x = 1)) + 0 + 0 =
        2 * labels.countP (fun x => decide (x = 1)) := by omega
    rw [he]
    exact qdivOpt_self _ (by omega)

/-- Witness for the amended C3 at preds = labels = [0, 1]. -/
theorem c3_witness :
    (∀ x ∈ ([0, 1] : List ℤ), x = 0 ∨ x = 1) ∧
      (0 : ℤ) ∈ ([0, 1] : List ℤ) ∧ (1 : ℤ) ∈ ([0, 1] : List ℤ) ∧
      ([mkRat 1 2, mkRat 1 2] : List ℚ).length = ([0, 1] : List ℤ).length ∧
      ∃ r, validation_metrics [0, 1] [mkRat 1 2, mkRat 1 2] [0, 1] =
          .ok r ∧
        r.accuracy = some 1 ∧ r.precision = some 1 ∧ r.sensitivity = some 1 ∧
        r.specificity = some 1 ∧ r.f1 = some 1 :=
  ⟨by decide, by decide, by decide, by decide,
    c3_perfect_prediction [0, 1] [mkRat 1 2, mkRat 1 2]
      (by decide) (by decide) (by decide) (by decide)⟩

/-! ### Count identification for the sweep at a fixed threshold -/

theorem predsAt_mem_01 (probs : List ℚ) (t : ℚ) :
    ∀ x ∈ predsAt probs t, x = 0 ∨ x = 1 := by
  intro x hx
  obtain ⟨p, _, rfl⟩ := List.mem_map.1 hx
  rw [classifyAt]
  by_cases h : t < p
  · right; rw [if_pos h]
  · left; rw [if_neg h]

theorem zip_fst_01 (labels preds : List ℤ)
    (hl : ∀ x ∈ labels, x = 0 ∨ x = 1) :
    ∀ q ∈ labels.zip preds, q.1 = 0 ∨ q.1 = 1 := by
  intro q hq
  obtain ⟨a, b⟩ := q
  exact hl a (List.of_mem_zip hq).1

theorem zip_snd_01 (labels preds : List ℤ)
    (hp : ∀ x ∈ preds, x = 0 ∨ x = 1) :
    ∀ q ∈ labels.zip preds, q.2 = 0 ∨ q.2 = 1 := by
  intro q hq
  obtain ⟨a, b⟩ := q
  exact hp b (List.of_mem_zip hq).2

/-- Predicted positives split into false and true positives. -/
theorem predSum_eq (labels preds : List ℤ)
    (hl : ∀ x ∈ labels, x = 0 ∨ x = 1) :
    predSum labels preds =
      count2 labels preds 0 1 + count2 labels preds 1 1 := by
  rw [predSum, countP_split_fst _ _ (zip_fst_01 labels preds hl), count2,
    count2]
  congr 1
  · refine countP_congr_mem _ _ _ (fun x _ => ?_)
    obtain ⟨a, b⟩ := x
    show (decide (b = 1) && decide (a = 0)) = decide (a = 0 ∧ b = 1)
    rw [Bool.decide_and, Bool.and_comm]
  · refine countP_congr_mem _ _ _ (fun x _ => ?_)
    obtain ⟨a, b⟩ := x
    show (decide (b = 1) && decide (a = 1)) = decide (a = 1 ∧ b = 1)
    rw [Bool.decide_and, Bool.and_comm]

/-- Actual positives split into false negatives and true positives. -/
theorem trueSum_eq (labels preds : List ℤ)
    (hp : ∀ x ∈ preds, x = 0 ∨ x = 1) :
    trueSum labels preds =
      count2 labels preds 1 0 + count2 labels preds 1 1 := by
  rw [trueSum, countP_split_snd _ _ (zip_snd_01 labels preds hp), count2,
    count2]
  congr 1
  · refine countP_congr_mem _ _ _ (fun x _ => ?_)
    obtain ⟨a, b⟩ := x
    show (decide (a = 1) && decide (b = 0)) = decide (a = 1 ∧ b = 0)
    rw [Bool.decide_and]
  · refine countP_congr_mem _ _ _ (fun x _ => ?_)
    obtain ⟨a, b⟩ := x
    show (decide (a = 1) && decide (b = 1)) = decide (a = 1 ∧ b = 1)
    rw [Bool.decide_and]

/-- Agreements split into true negatives and true positives. -/
theorem matchCount_eq (labels preds : List ℤ)
    (hl : ∀ x ∈ labels, x = 0 ∨ x = 1) :
    (labels.zip preds).countP (fun q => decide (q.1 = q.2)) =
      count2 labels preds 0 0 + count2 labels preds 1 1 := by
  rw [countP_split_fst _ _ (zip_fst_01 labels preds hl), count2, count2]
  congr 1
  · refine countP_congr_mem _ _ _ (fun x _ => ?_)
    obtain ⟨a, b⟩ := x
    show (decide (a = b) && decide (a = 0)) = decide (a = 0 ∧ b = 0)
    rw [← Bool.decide_and]
    exact decide_eq_decide.2
      ⟨fun h => ⟨h.2, by omega⟩, fun h => ⟨by omega, h.1⟩⟩
  · refine countP_congr_mem _ _ _ (fun x _ => ?_)
    obtain ⟨a, b⟩ := x
    show (decide (a = b) && decide (a = 1)) = decide (a = 1 ∧ b = 1)
    rw [← Bool.decide_and]
    exact decide_eq_decide.2
      ⟨fun h => ⟨h.2, by omega⟩, fun h => ⟨by omega, h.1⟩⟩

/-- The four confusion cells partition the aligned samples. -/
theorem zip_total_eq :
    ∀ L : List (ℤ × ℤ),
      (∀ q ∈ L, (q.1 = 0 ∨ q.1 = 1) ∧ (q.2 = 0 ∨ q.2 = 1)) →
      L.length =
        L.countP (fun q => decide (q.1 = 0 ∧ q.2 = 0)) +
          L.countP (fun q => decide (q.1 = 0 ∧ q.2 = 1)) +
          L.countP (fun q => decide (q.1 = 1 ∧ q.2 = 0)) +
          L.countP (fun q => decide (q.1 = 1 ∧ q.2 = 1)) := by
  intro L
  induction L with
  | nil => intro _; rfl
  | cons x xs ih =>
    intro hall
    obtain ⟨a, b⟩ := x
    have hx := hall (a, b) (by simp)
    have hxs := fun q hq => hall q (List.mem_cons_of_mem _ hq)
    simp only [List.length_cons, List.countP_cons, ih hxs]
    rcases hx.1 with rfl | rfl <;> rcases hx.2 with rfl | rfl <;>
      simp <;> omega

/-- When both inputs take only the values 0 and 1, a successful
confusion-matrix unpack yields exactly the four 0/1 cell counts. -/
theorem confusionCounts_01_of_some (labels preds : List ℤ)
    (hl : ∀ x ∈ labels, x = 0 ∨ x = 1)
    (hp : ∀ x ∈ preds, x = 0 ∨ x = 1) (tn fp fn tp : ℕ)
    (hcc : confusionCounts labels preds = some (tn, fp, fn, tp)) :
    tn = count2 labels preds 0 0 ∧ fp = count2 labels preds 0 1 ∧
      fn = count2 labels preds 1 0 ∧ tp = count2 labels preds 1 1 := by
  have hsub : ∀ x ∈ (labels ++ preds).dedup, x = 0 ∨ x = 1 := by
    intro x hx
    rcases List.mem_append.1 (List.mem_dedup.1 hx) with h | h
    exacts [hl x h, hp x h]
  have hnd := List.nodup_dedup (labels ++ preds)
  rcases hdd : (labels ++ preds).dedup with _ | ⟨a, _ | ⟨b, _ | ⟨c, tl⟩⟩⟩
  · have hnone : confusionCounts labels preds = none := by
      unfold confusionCounts
      rw [hdd]
    rw [hnone] at hcc
    cases hcc
  · have hnone : confusionCounts labels preds = none := by
      unfold confusionCounts
      rw [hdd]
    rw [hnone] at hcc
    cases hcc
  · have ha : a = 0 ∨ a = 1 := hsub a (by rw [hdd]; simp)
    have hb : b = 0 ∨ b = 1 := hsub b (by rw [hdd]; simp)
    have hab : a ≠ b := by
      rw [hdd] at hnd
      exact (List.pairwise_cons.1 hnd).1 b (by simp)
    have h0m : (0 : ℤ) ∈ labels ++ preds := by
      refine List.mem_dedup.1 ?_
      rw [hdd]
      rcases ha with rfl | rfl
      · simp
      · rcases hb with rfl | rfl
        · simp
        · omega
    have h1m : (1 : ℤ) ∈ labels ++ preds := by
      refine List.mem_dedup.1 ?_
      rw [hdd]
      rcases ha with rfl | rfl
      · rcases hb with rfl | rfl
        · omega
        · simp
      · simp
    have hcc2 := confusionCounts_of_01 labels preds hl hp h0m h1m
    rw [hcc2] at hcc
    simp only [Option.some.injEq, Prod.mk.injEq] at hcc
    obtain ⟨e1, e2, e3, e4⟩ := hcc
    exact ⟨e1.symm, e2.symm, e3.symm, e4.symm⟩
  · have hnone : confusionCounts labels preds = none := by
      unfold confusionCounts
      rw [hdd]
    rw [hnone] at hcc
    cases hcc

theorem mkRat_nat_div (n d : ℕ) : mkRat (n : ℤ) d = (n : ℚ) / (d : ℚ) := by
  rw [Rat.mkRat_eq_div]
  push_cast
  rfl

theorem mkRat_zero_left (d : ℕ) : mkRat (0 : ℤ) d = 0 := by
  rw [Rat.mkRat_eq_div]
  simp

theorem two_as_mkRat : mkRat 2 1 = (2 : ℚ) := by decide

/-- Claim C4: the threshold grid hits the double 0.5 exactly, so the
legend scalar is well defined, and for each swept metric the value
recorded at threshold 0.50 equals the value the MetricsCalculator
formula (the corresponding qdivOpt ratio over the confusion counts)
gives when the hard labels are derived afresh as probability > 0.50.
The precision and recall formulas are compared where defined, which is
what the nonzero-denominator hypotheses state. -/
theorem c4_recorded_at_half (labels : List ℤ) (probs : List ℚ)
    (hlab : ∀ x ∈ labels, x = 0 ∨ x = 1)
    (hlen : probs.length = labels.length) (tn fp fn tp : ℕ)
    (hcc : confusionCounts labels (predsAt probs (mkRat 1 2)) =
      some (tn, fp, fn, tp))
    (hP : tp + fp ≠ 0) (hR : tp + fn ≠ 0) :
    mkRat 1 2 ∈ thresholds ∧
      resultAt05 (sweepAccuracy labels probs) =
        qdivOpt (tp + tn) (tp + fp + tn + fn) ∧
      resultAt05 (sweepPrecision labels probs) = qdivOpt tp (tp + fp) ∧
      resultAt05 (sweepRecall labels probs) = qdivOpt tp (tp + fn) ∧
      resultAt05 (sweepF1 labels probs) =
        qdivOpt (2 * tp) (2 * tp + fp + fn) ∧
      resultAt05 (percentageOfSamples probs) =
        some (percentageOfSamples probs (mkRat 1 2)) := by
  have hp01 : ∀ x ∈ predsAt probs (mkRat 1 2), x = 0 ∨ x = 1 :=
    predsAt_mem_01 probs (mkRat 1 2)
  obtain ⟨htn, hfp, hfn, htp⟩ :=
    confusionCounts_01_of_some labels (predsAt probs (mkRat 1 2)) hlab hp01
      tn fp fn tp hcc
  have hPS : predSum labels (predsAt probs (mkRat 1 2)) = fp + tp := by
    rw [predSum_eq labels (predsAt probs (mkRat 1 2)) hlab, ← hfp, ← htp]
  have hTS : trueSum labels (predsAt probs (mkRat 1 2)) = fn + tp := by
    rw [trueSum_eq labels (predsAt probs (mkRat 1 2)) hp01, ← hfn, ← htp]
  have hTPC : tpCount labels (predsAt probs (mkRat 1 2)) = tp := htp.symm
  have hMC : (labels.zip (predsAt probs (mkRat 1 2))).countP
      (fun q => decide (q.1 = q.2)) = tn + tp := by
    rw [matchCount_eq labels (predsAt probs (mkRat 1 2)) hlab, ← htn, ← htp]
  have hzl : (labels.zip (predsAt probs (mkRat 1 2))).length =
      labels.length := by
    rw [List.length_zip, predsAt, List.length_map, hlen, min_self]
  have hTotal : labels.length = tn + fp + fn + tp := by
    have ht := zip_total_eq (labels.zip (predsAt probs (mkRat 1 2)))
      (fun q hq => ⟨zip_fst_01 labels _ hlab q hq, zip_snd_01 labels _ hp01 q hq⟩)
    rw [hzl] at ht
    rw [ht, htn, hfp, hfn, htp]
    rfl
  refine ⟨by decide, ?_, ?_, ?_, ?_, ?_⟩
  · rw [resultAt05_eq, qdivOpt, if_neg (by omega)]
    rw [sweepAccuracy, accuracy_score, hMC, Nat.add_comm tn tp, hTotal,
      show tn + fp + fn + tp = tp + fp + tn + fn from by omega]
  · rw [resultAt05_eq, qdivOpt, if_neg hP]
    rw [sweepPrecision, precision_score, if_neg (by omega), hTPC, hPS,
      Nat.add_comm fp tp]
  · rw [resultAt05_eq, qdivOpt, if_neg hR]
    rw [sweepRecall, recall_score, if_neg (by omega), hTPC, hTS,
      Nat.add_comm fn tp]
  · have hpval : precision_score labels (predsAt probs (mkRat 1 2)) =
        mkRat (tp : ℤ) (fp + tp) := by
      rw [precision_score, if_neg (by omega), hTPC, hPS]
    have hrval : recall_score labels (predsAt probs (mkRat 1 2)) =
        mkRat (tp : ℤ) (fn + tp) := by
      rw [recall_score, if_neg (by omega), hTPC, hTS]
    rw [resultAt05_eq, qdivOpt, if_neg (by omega)]
    simp only [sweepF1, f1_score]
    rw [hpval, hrval]
    rcases Nat.eq_zero_or_pos tp with htp0 | htppos
    · subst htp0
      have hz : ∀ d : ℕ, mkRat ((0 : ℕ) : ℤ) d = 0 := fun d => by
        rw [show ((0 : ℕ) : ℤ) = (0 : ℤ) from rfl, mkRat_zero_left]
      have hcond0 : qadd (mkRat ((0 : ℕ) : ℤ) (fp + 0))
          (mkRat ((0 : ℕ) : ℤ) (fn + 0)) = 0 := by
        rw [qadd_eq, hz, hz]
        norm_num
      rw [if_pos hcond0, show (2 * 0 : ℕ) = (0 : ℕ) from rfl, hz]
    · have hA : (0 : ℚ) < (tp : ℚ) := by exact_mod_cast htppos
      have hB : (0 : ℚ) < ((fp + tp : ℕ) : ℚ) := by
        exact_mod_cast (by omega : 0 < fp + tp)
      have hC : (0 : ℚ) < ((fn + tp : ℕ) : ℚ) := by
        exact_mod_cast (by omega : 0 < fn + tp)
      have hp2 : mkRat (tp : ℤ) (fp + tp) = (tp : ℚ) / ((fp + tp : ℕ) : ℚ) :=
        mkRat_nat_div tp (fp + tp)
      have hr2 : mkRat (tp : ℤ) (fn + tp) = (tp : ℚ) / ((fn + tp : ℕ) : ℚ) :=
        mkRat_nat_div tp (fn + tp)
      have hsum : (0 : ℚ) < (tp : ℚ) / ((fp + tp : ℕ) : ℚ) +
          (tp : ℚ) / ((fn + tp : ℕ) : ℚ) :=
        add_pos (div_pos hA hB) (div_pos hA hC)
      have hcond : ¬ qadd (mkRat (tp : ℤ) (fp + tp))
          (mkRat (tp : ℤ) (fn + tp)) = 0 := by
        rw [qadd_eq, hp2, hr2]
        exact ne_of_gt hsum
      rw [if_neg hcond, qdiv_eq, qmul_eq, qmul_eq, qadd_eq, two_as_mkRat,
        hp2, hr2, mkRat_nat_div]
      congr 1
      have hB0 : ((fp + tp : ℕ) : ℚ) ≠ 0 := ne_of_gt hB
      have hC0 : ((fn + tp : ℕ) : ℚ) ≠ 0 := ne_of_gt hC
      have hD0 : ((2 * tp + fp + fn : ℕ) : ℚ) ≠ 0 := by
        exact_mod_cast (by omega : 2 * tp + fp + fn ≠ 0)
      have hS0 : (tp : ℚ) / ((fp + tp : ℕ) : ℚ) +
          (tp : ℚ) / ((fn + tp : ℕ) : ℚ) ≠ 0 := ne_of_gt hsum
      push_cast at hB0 hC0 hD0 hS0 ⊢
      field_simp
      ring
  · rw [resultAt05_eq]

/-- Witness for C4 on labels [1, 0] with probabilities 9/10 and 1/5: the
at-0.5 predictions are [1, 0], the confusion counts are (1, 0, 0, 1) and
every recorded scalar matches the calculator formula. -/
theorem c4_witness :
    (∀ x ∈ ([1, 0] : List ℤ), x = 0 ∨ x = 1) ∧
      ([mkRat 9 10, mkRat 1 5] : List ℚ).length = ([1, 0] : List ℤ).length ∧
      confusionCounts [1, 0]
          (predsAt [mkRat 9 10, mkRat 1 5] (mkRat 1 2)) =
        some (1, 0, 0, 1) ∧
      ((1 : ℕ) + 0 ≠ 0) ∧
      (mkRat 1 2 ∈ thresholds ∧
        resultAt05 (sweepAccuracy [1, 0] [mkRat 9 10, mkRat 1 5]) =
          qdivOpt (1 + 1) (1 + 0 + 1 + 0) ∧
        resultAt05 (sweepPrecision [1, 0] [mkRat 9 10, mkRat 1 5]) =
          qdivOpt 1 (1 + 0) ∧
        resultAt05 (sweepRecall [1, 0] [mkRat 9 10, mkRat 1 5]) =
          qdivOpt 1 (1 + 0) ∧
        resultAt05 (sweepF1 [1, 0] [mkRat 9 10, mkRat 1 5]) =
          qdivOpt (2 * 1) (2 * 1 + 0 + 0) ∧
        resultAt05 (percentageOfSamples [mkRat 9 10, mkRat 1 5]) =
          some (percentageOfSamples [mkRat 9 10, mkRat 1 5] (mkRat 1 2))) :=
  ⟨by decide, by decide, by decide, by decide,
    c4_recorded_at_half [1, 0] [mkRat 9 10, mkRat 1 5] (by decide)
      (by decide) 1 0 0 1 (by decide) (by decide) (by decide)⟩
